import Mathlib

/-!
Shallow embedding of the diffmah star-formation-history pipeline
(`diffmah/individual_sfr_history.py`).

Real (float) arrays are modelled as `List ℝ`; the numpy elementwise
operations become `List.map` / `List.zipWith`; `10 ** x` becomes real
exponentiation `(10 : ℝ) ^ x` and `np.log10` becomes `Real.logb 10`.
Python `assert` failures are modelled as `Except.error` results carrying
the assertion message.

The accretion-history, SFR-efficiency and quenching kernels live in
modules (`halo_assembly`, `main_sequence_sfr_eff`, `quenching_times`)
that are outside collaborators of this core; they are modelled as
abstract fields of a `Kernels` structure, so every theorem below holds
for an arbitrary choice of collaborator behaviour unless a concrete
instance is named.
-/

noncomputable section

/-- The cosmic baryon fraction constant `FB = 0.158` from the source. -/
def FB : ℝ := 0.158

/-- Embedding of `np.cumsum`: running sums of a list. -/
def cumsum : List ℝ → List ℝ
  | [] => []
  | a :: l => a :: (cumsum l).map (fun s => a + s)

/-- Segment walk of `np.interp`: given interpolation points sorted by
first component and a query `x` larger than the first abscissa, find the
segment containing `x` and interpolate linearly; past the last point the
last ordinate is returned (numpy clamps at the right edge). -/
def interp_pts (x : ℝ) : List (ℝ × ℝ) → ℝ
  | [] => 0
  | [p] => p.2
  | p :: q :: rest =>
    if x ≤ q.1 then p.2 + (q.2 - p.2) * (x - p.1) / (q.1 - p.1)
    else interp_pts x (q :: rest)

/-- Embedding of `np.interp x xp fp`: piecewise-linear interpolation of
the points `zip xp fp`, clamped to `fp.head`/`fp.last` outside the range
of `xp`. -/
def np_interp (x : ℝ) (xp fp : List ℝ) : ℝ :=
  match xp.zip fp with
  | [] => 0
  | p :: rest => if x ≤ p.1 then p.2 else interp_pts x (p :: rest)

/-- Interior cell widths used by `dt_array` (see there). -/
def dt_mid (prev x : ℝ) : List ℝ → List ℝ
  | [] => [x - prev]
  | y :: rest => (y - prev) / 2 :: dt_mid x y rest

/-- Modelled from the spec: the local grid-spacing array (midpoint-rule
cell widths) produced by `_process_halo_mah_args` in the
`halo_assembly` collaborator module, which is absent from the sources.
For a grid `t₀ < t₁ < ... < tₙ`, the spacing is `t₁ - t₀` at the left
edge, `(tᵢ₊₁ - tᵢ₋₁)/2` at interior points, and `tₙ - tₙ₋₁` at the
right edge. -/
def dt_array : List ℝ → List ℝ
  | [] => []
  | [_] => []
  | a :: b :: rest => (b - a) :: dt_mid a b rest

/-- The four MAH shape parameters threaded to the accretion kernel. -/
structure MahKernelParams where
  dmhdt_x0 : ℝ
  dmhdt_k : ℝ
  dmhdt_early_index : ℝ
  dmhdt_late_index : ℝ

/-- The six main-sequence SFR-efficiency parameters. -/
structure SfrEffParams where
  lge0 : ℝ
  k_early : ℝ
  lgtc : ℝ
  lgec : ℝ
  k_trans : ℝ
  a_late : ℝ

/-- The two quenching parameters. -/
structure QuenchParams where
  log_qtime : ℝ
  qspeed : ℝ

/-- Abstract outside collaborators of the core (spec §6): the
accretion-history kernel (both its public history form and its jax
kernel form), the SFR-efficiency kernel, the quenching kernel, and the
`tmp`-index lookup performed by `_process_halo_mah_args`. -/
structure Kernels where
  assembly_history : List ℝ → ℝ → ℝ → MahKernelParams → List ℝ × List ℝ
  assembly_kern : List ℝ → List ℝ → ℝ → MahKernelParams → ℕ → List ℝ × List ℝ
  log_sfr_efficiency_ms : List ℝ → SfrEffParams → List ℝ
  gradual_quenching : List ℝ → QuenchParams → List ℝ
  indx_tmp : List ℝ → ℝ → ℕ

/-- Embedding of `_individual_log_sfr_history_jax_kern`: compose the
accretion rate with the baryon fraction, the efficiency curve and the
quenching suppression, all additively in log space. -/
def _individual_log_sfr_history_jax_kern (K : Kernels) (logt dtarr : List ℝ)
    (logmp : ℝ) (mp : MahKernelParams) (ep : SfrEffParams) (qp : QuenchParams)
    (indx_tmp : ℕ) : List ℝ :=
  let log_dmhdt := (K.assembly_kern logt dtarr logmp mp indx_tmp).2
  let log_dmbdt := log_dmhdt.map (fun v => Real.logb 10 FB + v)
  let log_sfr_eff := K.log_sfr_efficiency_ms logt ep
  let log_sfr_ms := List.zipWith (fun a b => a + b) log_dmbdt log_sfr_eff
  List.zipWith (fun a b => a + b) log_sfr_ms (K.gradual_quenching logt qp)

/-- Embedding of `_calculate_cumulative_in_situ_mass`: the source
computes `log10(cumsum(10 ** log_sfr) * dtarr) + 9.0`, i.e. the running
sum of the linear-space SFR is multiplied elementwise by the spacing
array after summation. -/
def _calculate_cumulative_in_situ_mass (log_sfr dtarr : List ℝ) : List ℝ :=
  List.zipWith (fun s d => Real.logb 10 (s * d) + 9)
    (cumsum (log_sfr.map (fun v => (10 : ℝ) ^ v))) dtarr

/-- Embedding of `_individual_log_mstar_history_jax_kern`: the log-SFR
curve paired with its cumulative integral. -/
def _individual_log_mstar_history_jax_kern (K : Kernels) (logt dtarr : List ℝ)
    (logmp : ℝ) (mp : MahKernelParams) (ep : SfrEffParams) (qp : QuenchParams)
    (indx_tmp : ℕ) : List ℝ × List ℝ :=
  let log_sfr := _individual_log_sfr_history_jax_kern K logt dtarr logmp mp ep qp indx_tmp
  (log_sfr, _calculate_cumulative_in_situ_mass log_sfr dtarr)

/-- Embedding of `individual_sfr_history`.  The argument processing of
`_process_halo_mah_args` (absent from the sources) is modelled from the
spec: `logt` is the elementwise base-10 log of the grid, `dtarr` the
local spacing array `dt_array`, and the `tmp` index lookup is the
abstract collaborator field `Kernels.indx_tmp`. -/
def individual_sfr_history (K : Kernels) (cosmic_time : List ℝ) (logmp : ℝ)
    (mp : MahKernelParams) (ep : SfrEffParams) (qp : QuenchParams) (tmp : ℝ) :
    List ℝ × List ℝ :=
  let logt := cosmic_time.map (Real.logb 10)
  let dtarr := dt_array cosmic_time
  _individual_log_mstar_history_jax_kern K logt dtarr logmp mp ep qp
    (K.indx_tmp cosmic_time tmp)

/-- Embedding of `_compute_fstar`: lag each grid time by `tau_s`
(clamped below at the first grid time), interpolate log-SM at the lagged
times in log-log space, and return `1 - SM(t_lag)/SM(t)` clamped below
at `0`. -/
def _compute_fstar (tarr : List ℝ) (in_situ_log_sm : List ℝ) (tau_s : ℝ) : List ℝ :=
  let min_t_lag := tarr.headD 0
  let t_lag := tarr.map (fun t => if t - tau_s < min_t_lag then min_t_lag else t - tau_s)
  let log_sm_at_t_lag :=
    t_lag.map (fun t => np_interp (Real.logb 10 t) (tarr.map (Real.logb 10)) in_situ_log_sm)
  (in_situ_log_sm.zip log_sm_at_t_lag).map (fun p =>
    let fstar := 1 - (10 : ℝ) ^ p.2 / (10 : ℝ) ^ p.1
    if fstar < 0 then 0 else fstar)

/-- The `fstar_timescales` argument of the orchestrators: a Python
caller may pass either a bare scalar or a sequence. -/
inductive FstarArg where
  | scalar (τ : ℝ)
  | seq (l : List ℝ)

/-- Embedding of the `try: len(...) except TypeError: assert ... > 0`
idiom at lines 216-220 and 79-84 of the source: a scalar is checked to
be strictly positive and wrapped in a one-element tuple, a sequence is
passed through unchanged (its elements are not validated). -/
def normalize_fstar_timescales : FstarArg → Except String (List ℝ)
  | .scalar τ =>
    if 0 < τ then .ok [τ] else .error "Input fstar_timescales must be strictly positive"
  | .seq l => .ok l

/-- The four curves computed by `predict_in_situ_history` before the
return-arity branch: log-MAH, log-SM, (clipped) log-sSFR and the list
of Fstar arrays, one per requested timescale. -/
structure SfrHistoryParts where
  log_mah : List ℝ
  log_sm : List ℝ
  log_ssfr : List ℝ
  fstar_collector : List (List ℝ)

/-- Embedding of the body of `predict_in_situ_history` (lines 185-225):
derive the halo assembly history, the SFR and SM curves, clip the sSFR
at the optional floor, and compute one Fstar array per timescale of the
already-normalized timescale list. -/
def predict_parts (K : Kernels) (cosmic_time : List ℝ) (logmp : ℝ)
    (fstar_timescales : List ℝ) (mp : MahKernelParams) (ep : SfrEffParams)
    (qp : QuenchParams) (tmp : ℝ) (log_ssfr_clip : Option ℝ) : SfrHistoryParts :=
  let log_mah := (K.assembly_history cosmic_time logmp tmp mp).1
  let sfr_sm := individual_sfr_history K cosmic_time logmp mp ep qp tmp
  let raw_ssfr := List.zipWith (fun a b => a - b) sfr_sm.1 sfr_sm.2
  let log_ssfr :=
    match log_ssfr_clip with
    | none => raw_ssfr
    | some c => raw_ssfr.map (fun v => if v < c then c else v)
  { log_mah := log_mah
    log_sm := sfr_sm.2
    log_ssfr := log_ssfr
    fstar_collector := fstar_timescales.map (fun τ => _compute_fstar cosmic_time sfr_sm.2 τ) }

/-- The variable-arity return value of `predict_in_situ_history`: a
3-tuple when no Fstar timescale was requested, a 4-tuple otherwise. -/
inductive SingleResult where
  | three (log_mah log_sm log_ssfr : List ℝ)
  | four (log_mah log_sm log_ssfr : List ℝ) (fstar_collector : List (List ℝ))

/-- Embedding of `predict_in_situ_history`: validate the timescale
argument, compute the four curve groups, and branch on the arity of the
returned tuple exactly as lines 227-230 of the source do. -/
def predict_in_situ_history (K : Kernels) (cosmic_time : List ℝ) (logmp : ℝ)
    (fstar_timescales : FstarArg) (mp : MahKernelParams) (ep : SfrEffParams)
    (qp : QuenchParams) (tmp : ℝ) (log_ssfr_clip : Option ℝ) :
    Except String SingleResult :=
  match normalize_fstar_timescales fstar_timescales with
  | .error e => .error e
  | .ok l =>
    let p := predict_parts K cosmic_time logmp l mp ep qp tmp log_ssfr_clip
    if 0 < p.fstar_collector.length then
      .ok (.four p.log_mah p.log_sm p.log_ssfr p.fstar_collector)
    else
      .ok (.three p.log_mah p.log_sm p.log_ssfr)

/-- The log-log linear resampling used by the collection orchestrator:
`np.interp(np.log10 cosmic_time, np.log10 t_table, curve)`. -/
def resample (cosmic_time t_table : List ℝ) (curve : List ℝ) : List ℝ :=
  cosmic_time.map (fun t => np_interp (Real.logb 10 t) (t_table.map (Real.logb 10)) curve)

/-- Embedding of `predict_in_situ_history_collection`: check the row
counts of the two parameter arrays, validate the timescale argument,
then for every halo unpack its parameter rows positionally, run the
single-halo pipeline on the shared dense grid `t_table` and resample
every produced curve onto `cosmic_time`.  The result models the
returned list `[log_mah, log_smh, log_ssfrh, *fstar_coll]` of stacked
per-halo rows. -/
def predict_in_situ_history_collection (K : Kernels)
    (mah_params sfr_params : List (List ℝ)) (cosmic_time : List ℝ)
    (t_table : List ℝ) (fstar_timescales : FstarArg) (log_ssfr_clip : Option ℝ) :
    Except String (List (List (List ℝ))) :=
  if mah_params.length ≠ sfr_params.length then
    .error "mismatched shapes for mah_params and sfr_params"
  else
    match normalize_fstar_timescales fstar_timescales with
    | .error e => .error e
    | .ok l =>
      let xt := (mah_params.zip sfr_params).map (fun ms =>
        predict_parts K t_table (ms.1.getD 1 0) l
          ⟨ms.1.getD 2 0, ms.1.getD 3 0, ms.1.getD 4 0, ms.1.getD 5 0⟩
          ⟨ms.2.getD 0 0, ms.2.getD 1 0, ms.2.getD 2 0,
            ms.2.getD 3 0, ms.2.getD 4 0, ms.2.getD 5 0⟩
          ⟨ms.2.getD 6 0, ms.2.getD 7 0⟩
          (ms.1.getD 0 0) log_ssfr_clip)
      .ok ([xt.map (fun p => resample cosmic_time t_table p.log_mah),
            xt.map (fun p => resample cosmic_time t_table p.log_sm),
            xt.map (fun p => resample cosmic_time t_table p.log_ssfr)]
           ++ (List.range l.length).map (fun it =>
                xt.map (fun p => resample cosmic_time t_table (p.fstar_collector.getD it []))))

/-- Formalisation of the integration formula asserted by the spec for
comparison with the source integrator: each linear-space SFR value is
weighted by its own local grid spacing before the running sum is taken,
`SM(t_i) = Σ_{j ≤ i} SFR(t_j)·Δt_j`, then converted to log space and
shifted by `+9.0`. -/
def spec_cumulative_in_situ_mass (log_sfr dtarr : List ℝ) : List ℝ :=
  (cumsum (List.zipWith (fun v d => (10 : ℝ) ^ v * d) log_sfr dtarr)).map
    (fun m => Real.logb 10 m + 9)

/-- A concrete trivial choice of collaborator kernels (all curves
identically zero, index lookup zero), used to instantiate theorems at
explicit inputs. -/
def Ktriv : Kernels where
  assembly_history := fun t _ _ _ => (t.map (fun _ => 0), t.map (fun _ => 0))
  assembly_kern := fun logt _ _ _ _ => (logt.map (fun _ => 0), logt.map (fun _ => 0))
  log_sfr_efficiency_ms := fun logt _ => logt.map (fun _ => 0)
  gradual_quenching := fun logt _ => logt.map (fun _ => 0)
  indx_tmp := fun _ _ => 0

end

/-! ## Helper lemmas -/

theorem cumsum_length (l : List ℝ) : (cumsum l).length = l.length := by
  induction l with
  | nil => rfl
  | cons a l ih => simp [cumsum, ih]

theorem zipWith_replicate_eq_map (f : ℝ → ℝ → ℝ) (d : ℝ) :
    ∀ (l : List ℝ) (n : ℕ),
      List.zipWith f l (List.replicate n d) = (l.take n).map (fun a => f a d)
  | [], _ => by simp
  | _ :: _, 0 => by simp
  | a :: l, n + 1 => by
    simp [List.replicate_succ, zipWith_replicate_eq_map f d l n]

theorem cumsum_map_mul (d : ℝ) :
    ∀ l : List ℝ, cumsum (l.map (fun v => v * d)) = (cumsum l).map (fun s => s * d)
  | [] => rfl
  | a :: l => by
    simp only [List.map_cons, cumsum, cumsum_map_mul d l, List.map_map]
    congr 1
    apply List.map_congr_left
    intro x _
    simp only [Function.comp_apply]
    ring

/-- C1, counterexample: on the non-uniform spacing array `[1, 2]` with
constant `log_sfr = [0, 0]`, the source integrator returns
`log10((1+1)·2) + 9` at the second point whereas the claimed formula
`Σ_{j≤i} SFR(t_j)·Δt_j` gives `log10(1·1 + 1·2) + 9`. -/
theorem cumulative_mass_spec_formula_fails_on_nonuniform_spacing :
    _calculate_cumulative_in_situ_mass [0, 0] [1, 2]
      ≠ spec_cumulative_in_situ_mass [0, 0] [1, 2] := by
  have h34 : Real.logb 10 3 < Real.logb 10 4 :=
    Real.logb_lt_logb (by norm_num) (by norm_num) (by norm_num)
  intro h
  simp only [_calculate_cumulative_in_situ_mass, spec_cumulative_in_situ_mass,
    List.map_cons, List.map_nil, cumsum, List.zipWith_cons_cons, List.zipWith_nil_right,
    Real.rpow_zero] at h
  norm_num at h
  linarith

/-- C1, amended: when every grid cell has the same width `d`, the source
integrator `log10(cumsum(10^log_sfr)·dtarr) + 9` agrees with the claimed
per-term-weighted formula `log10(Σ_{j≤i} SFR(t_j)·Δt_j) + 9`; in
general the source multiplies the unweighted running sum by the local
spacing of the output point only. -/
theorem cumulative_mass_matches_spec_on_uniform_spacing (log_sfr : List ℝ) (d : ℝ) :
    _calculate_cumulative_in_situ_mass log_sfr (List.replicate log_sfr.length d)
      = spec_cumulative_in_situ_mass log_sfr (List.replicate log_sfr.length d) := by
  unfold _calculate_cumulative_in_situ_mass spec_cumulative_in_situ_mass
  have h1 : List.zipWith (fun v dd => (10 : ℝ) ^ v * dd) log_sfr
      (List.replicate log_sfr.length d)
      = (log_sfr.map (fun v => (10 : ℝ) ^ v)).map (fun s => s * d) := by
    rw [zipWith_replicate_eq_map, List.take_length, List.map_map]
    simp [Function.comp]
  have h2 : List.zipWith (fun s dd => Real.logb 10 (s * dd) + 9)
      (cumsum (log_sfr.map (fun v => (10 : ℝ) ^ v))) (List.replicate log_sfr.length d)
      = (cumsum (log_sfr.map (fun v => (10 : ℝ) ^ v))).map
          (fun s => Real.logb 10 (s * d) + 9) := by
    rw [zipWith_replicate_eq_map]
    congr 1
    apply List.take_of_length_le
    rw [cumsum_length, List.length_map]
  rw [h1, h2, cumsum_map_mul, List.map_map]
  simp [Function.comp]

theorem cumsum_nonneg (l : List ℝ) (h : ∀ x ∈ l, 0 ≤ x) : ∀ y ∈ cumsum l, 0 ≤ y := by
  induction l with
  | nil => simp [cumsum]
  | cons a l ih =>
    intro y hy
    simp only [cumsum, List.mem_cons, List.mem_map] at hy
    rcases hy with rfl | ⟨s, hs, rfl⟩
    · exact h y (by simp)
    · have h1 := ih (fun x hx => h x (by simp [hx])) s hs
      have h2 := h a (by simp)
      linarith

theorem cumsum_pos (l : List ℝ) (h : ∀ x ∈ l, 0 < x) : ∀ y ∈ cumsum l, 0 < y := by
  induction l with
  | nil => simp [cumsum]
  | cons a l ih =>
    intro y hy
    simp only [cumsum, List.mem_cons, List.mem_map] at hy
    rcases hy with rfl | ⟨s, hs, rfl⟩
    · exact h y (by simp)
    · have h1 := ih (fun x hx => h x (by simp [hx])) s hs
      have h2 := h a (by simp)
      linarith

theorem cumsum_chain_le (l : List ℝ) (h : ∀ x ∈ l, 0 ≤ x) :
    List.Chain' (· ≤ ·) (cumsum l) := by
  induction l with
  | nil => simp [cumsum]
  | cons a l ih =>
    have hl := ih (fun x hx => h x (by simp [hx]))
    rw [cumsum, List.chain'_cons']
    constructor
    · intro y hy
      rw [List.head?_map] at hy
      rcases hh : (cumsum l).head? with _ | s
      · rw [hh] at hy; simp at hy
      · rw [hh] at hy
        have hy2 : a + s = y := by simpa using hy
        have hs : s ∈ cumsum l := by
          rcases hc : cumsum l with _ | ⟨u, us⟩
          · rw [hc] at hh; simp at hh
          · rw [hc] at hh; simp at hh; simp [hc, hh]
        have := cumsum_nonneg l (fun x hx => h x (by simp [hx])) s hs
        rw [← hy2]
        linarith
    · rw [List.chain'_map]
      exact hl.imp (fun x y hxy => by linarith)

theorem dt_mid_uniform (h : ℝ) :
    ∀ (rest : List ℝ) (prev x : ℝ), x - prev = h →
      List.Chain' (fun u v => v - u = h) (x :: rest) →
      dt_mid prev x rest = List.replicate (rest.length + 1) h
  | [], prev, x, hxp, _ => by simp [dt_mid, hxp]
  | y :: rest, prev, x, hxp, hch => by
    have h1 : y - x = h := (List.chain'_cons.mp hch).1
    have h2 : List.Chain' (fun u v => v - u = h) (y :: rest) := (List.chain'_cons.mp hch).2
    have hhalf : (y - prev) / 2 = h := by linarith
    simp only [dt_mid, List.length_cons]
    rw [dt_mid_uniform h rest x y h1 h2, hhalf]
    simp [List.replicate_succ]

theorem dt_array_uniform (h : ℝ) (a b : ℝ) (rest : List ℝ)
    (hch : List.Chain' (fun u v => v - u = h) (a :: b :: rest)) :
    dt_array (a :: b :: rest) = List.replicate (rest.length + 2) h := by
  have h1 : b - a = h := (List.chain'_cons.mp hch).1
  have h2 : List.Chain' (fun u v => v - u = h) (b :: rest) := (List.chain'_cons.mp hch).2
  simp only [dt_array, List.replicate_succ]
  rw [dt_mid_uniform h rest a b h1 h2]
  simp [h1, List.replicate_succ]

theorem mass_chain_of_uniform_grid (log_sfr t : List ℝ) (h : ℝ) (hh : 0 < h)
    (hch : List.Chain' (fun u v => v - u = h) t) :
    List.Chain' (· ≤ ·) (_calculate_cumulative_in_situ_mass log_sfr (dt_array t)) := by
  rcases t with _ | ⟨a, _ | ⟨b, rest⟩⟩
  · simp [_calculate_cumulative_in_situ_mass, dt_array]
  · simp [_calculate_cumulative_in_situ_mass, dt_array]
  · rw [_calculate_cumulative_in_situ_mass, dt_array_uniform h a b rest hch,
      zipWith_replicate_eq_map]
    set S := cumsum (log_sfr.map (fun v => (10 : ℝ) ^ v)) with hS
    have hpos : ∀ x ∈ S, 0 < x := by
      apply cumsum_pos
      intro x hx
      rcases List.mem_map.mp hx with ⟨v, _, rfl⟩
      exact Real.rpow_pos_of_pos (by norm_num) v
    have hcs : List.Chain' (· ≤ ·) S := by
      apply cumsum_chain_le
      intro x hx
      rcases List.mem_map.mp hx with ⟨v, _, rfl⟩
      exact (Real.rpow_pos_of_pos (by norm_num) v).le
    have hptw : (S.take (rest.length + 2)).Pairwise (· ≤ ·) :=
      (List.chain'_iff_pairwise.mp hcs).sublist (List.take_sublist _ _)
    rw [List.chain'_iff_pairwise, List.pairwise_map]
    refine hptw.imp_of_mem ?_
    intro x y hx hy hxy
    have hxpos : 0 < x := hpos x ((List.take_sublist _ _).subset hx)
    refine add_le_add_right ?_ 9
    refine Real.logb_le_logb_of_le (by norm_num) (by positivity) ?_
    exact mul_le_mul_of_nonneg_right hxy hh.le

/-- C2, amended: on a uniformly spaced time grid (constant positive
step `h`, as produced by the default `np.linspace` table), the log-SM
curve of the pipeline is non-decreasing, for every choice of
collaborator kernels and parameters; on a non-uniformly spaced strictly
increasing grid it can decrease (see the counterexample). -/
theorem log_sm_monotone_on_uniform_grid (K : Kernels) (t : List ℝ)
    (h logmp tmp : ℝ) (l : List ℝ) (mp : MahKernelParams) (ep : SfrEffParams)
    (qp : QuenchParams) (clip : Option ℝ) (hh : 0 < h)
    (hch : List.Chain' (fun u v => v - u = h) t) :
    List.Chain' (· ≤ ·) (predict_parts K t logmp l mp ep qp tmp clip).log_sm := by
  have hsm : (predict_parts K t logmp l mp ep qp tmp clip).log_sm
      = _calculate_cumulative_in_situ_mass
          (_individual_log_sfr_history_jax_kern K (t.map (Real.logb 10)) (dt_array t)
            logmp mp ep qp (K.indx_tmp t tmp)) (dt_array t) := by
    simp [predict_parts, individual_sfr_history, _individual_log_mstar_history_jax_kern]
  rw [hsm]
  exact mass_chain_of_uniform_grid _ t h hh hch

/-- C2, witness for the amended theorem: a concrete uniform three-point
grid with step `1` and the trivial kernels. -/
theorem log_sm_monotone_on_uniform_grid_witness :
    List.Chain' (· ≤ ·)
      (predict_parts Ktriv [1, 2, 3] 12 [] ⟨0, 0, 0, 0⟩ ⟨0, 0, 0, 0, 0, 0⟩ ⟨0, 0⟩ 14
        (some (-11))).log_sm :=
  log_sm_monotone_on_uniform_grid Ktriv [1, 2, 3] 1 12 14 [] ⟨0, 0, 0, 0⟩
    ⟨0, 0, 0, 0, 0, 0⟩ ⟨0, 0⟩ (some (-11)) (by norm_num)
    (by norm_num [List.chain'_cons])

/-- C2, counterexample: on the strictly increasing but non-uniform grid
`[1, 2, 2.01]` with the trivial kernels (constant SFR), the log-SM
sequence of the pipeline decreases at the third point, because the
running SFR sum is multiplied by the local spacing `0.01` of that point. -/
theorem log_sm_not_monotone_on_nonuniform_grid :
    ¬ List.Chain' (· ≤ ·)
      (predict_parts Ktriv [1, 2, 201 / 100] 12 [] ⟨0, 0, 0, 0⟩ ⟨0, 0, 0, 0, 0, 0⟩
        ⟨0, 0⟩ 14 (some (-11))).log_sm := by
  have hFB : (10 : ℝ) ^ Real.logb 10 (0.158 : ℝ) = 0.158 :=
    Real.rpow_logb (by norm_num) (by norm_num) (by norm_num)
  intro hch
  simp only [predict_parts, individual_sfr_history, _individual_log_mstar_history_jax_kern,
    _individual_log_sfr_history_jax_kern, _calculate_cumulative_in_situ_mass, Ktriv,
    dt_array, dt_mid, cumsum, FB, List.map_cons, List.map_nil, List.zipWith_cons_cons,
    List.zipWith_nil_right, add_zero, hFB, List.chain'_cons, List.chain'_singleton,
    and_true] at hch
  have hlt : Real.logb 10 ((0.158 + (0.158 + 0.158)) * (201 / 100 - 2))
      < Real.logb 10 ((0.158 + 0.158) * ((201 / 100 - 1) / 2)) :=
    Real.logb_lt_logb (by norm_num) (by norm_num) (by norm_num)
  linarith [hch.2, hlt]

/-- C4, counterexample: a non-positive timescale passed as an element of
a sequence is not rejected: the single-halo orchestrator accepts the
call and returns a 4-tuple result computed with the negative window. -/
theorem fstar_nonpositive_in_sequence_not_rejected :
    predict_in_situ_history Ktriv [1, 2] 12 (.seq [-1]) ⟨0, 0, 0, 0⟩
        ⟨0, 0, 0, 0, 0, 0⟩ ⟨0, 0⟩ 14 (some (-11))
      = Except.ok (SingleResult.four
          (predict_parts Ktriv [1, 2] 12 [-1] ⟨0, 0, 0, 0⟩ ⟨0, 0, 0, 0, 0, 0⟩ ⟨0, 0⟩ 14
            (some (-11))).log_mah
          (predict_parts Ktriv [1, 2] 12 [-1] ⟨0, 0, 0, 0⟩ ⟨0, 0, 0, 0, 0, 0⟩ ⟨0, 0⟩ 14
            (some (-11))).log_sm
          (predict_parts Ktriv [1, 2] 12 [-1] ⟨0, 0, 0, 0⟩ ⟨0, 0, 0, 0, 0, 0⟩ ⟨0, 0⟩ 14
            (some (-11))).log_ssfr
          (predict_parts Ktriv [1, 2] 12 [-1] ⟨0, 0, 0, 0⟩ ⟨0, 0, 0, 0, 0, 0⟩ ⟨0, 0⟩ 14
            (some (-11))).fstar_collector) := rfl

/-- C4, amended: a non-positive scalar `fstar_timescales` is rejected by
both orchestrators with the assertion message; elements of a sequence
argument are passed through without validation (see the
counterexample). -/
theorem fstar_nonpositive_scalar_rejected (K : Kernels) (t ct tt : List ℝ)
    (logmp τ tmp : ℝ) (mp : MahKernelParams) (ep : SfrEffParams) (qp : QuenchParams)
    (clip : Option ℝ) (mah sfr : List (List ℝ)) (hτ : τ ≤ 0)
    (hrows : mah.length = sfr.length) :
    predict_in_situ_history K t logmp (.scalar τ) mp ep qp tmp clip
        = .error "Input fstar_timescales must be strictly positive"
      ∧ predict_in_situ_history_collection K mah sfr ct tt (.scalar τ) clip
        = .error "Input fstar_timescales must be strictly positive" := by
  have hn : normalize_fstar_timescales (.scalar τ)
      = .error "Input fstar_timescales must be strictly positive" := by
    simp only [normalize_fstar_timescales]
    rw [if_neg (not_lt.mpr hτ)]
  constructor
  · simp [predict_in_situ_history, hn]
  · simp [predict_in_situ_history_collection, hrows, hn]

/-- C4, witness for the amended theorem at the concrete scalar `-1`. -/
theorem fstar_nonpositive_scalar_rejected_witness :
    predict_in_situ_history Ktriv [1] 12 (.scalar (-1)) ⟨0, 0, 0, 0⟩
        ⟨0, 0, 0, 0, 0, 0⟩ ⟨0, 0⟩ 14 none
        = .error "Input fstar_timescales must be strictly positive"
      ∧ predict_in_situ_history_collection Ktriv [] [] [1] [1] (.scalar (-1)) none
        = .error "Input fstar_timescales must be strictly positive" :=
  fstar_nonpositive_scalar_rejected Ktriv [1] [1] [1] 12 (-1) 14 ⟨0, 0, 0, 0⟩
    ⟨0, 0, 0, 0, 0, 0⟩ ⟨0, 0⟩ none [] [] (by norm_num) rfl

/-- C6 (confirmed): when the row counts of `mah_params` and
`sfr_params` differ, the collection orchestrator rejects the call with
the assertion message before any per-halo computation, producing no
incomplete output. -/
theorem collection_rejects_mismatched_row_counts (K : Kernels)
    (mah sfr : List (List ℝ)) (ct tt : List ℝ) (fs : FstarArg) (clip : Option ℝ)
    (h : mah.length ≠ sfr.length) :
    predict_in_situ_history_collection K mah sfr ct tt fs clip
      = .error "mismatched shapes for mah_params and sfr_params" := by
  simp [predict_in_situ_history_collection, h]

/-- C6, witness: one MAH row against zero SFR rows. -/
theorem collection_rejects_mismatched_row_counts_witness :
    predict_in_situ_history_collection Ktriv [[]] [] [1] [1] (.seq []) none
      = .error "mismatched shapes for mah_params and sfr_params" :=
  collection_rejects_mismatched_row_counts Ktriv [[]] [] [1] [1] (.seq []) none (by simp)

theorem clip_floor_ge (L : List ℝ) (c : ℝ) (i : ℕ)
    (hi : i < (L.map (fun v => if v < c then c else v)).length) :
    c ≤ (L.map (fun v => if v < c then c else v)).getD i 0 := by
  rw [List.getD_eq_getElem _ _ hi, List.getElem_map]
  split
  · exact le_refl c
  · exact le_of_not_lt (by assumption)

/-- C7 (confirmed): with a clipping floor `c` supplied, every entry of
the log-sSFR curve returned by the single-halo pipeline is at least
`c`; values below the floor are saturated to `c` by the `np.where`
select, not removed. -/
theorem ssfr_clipped_at_floor (K : Kernels) (t : List ℝ) (logmp tmp c : ℝ)
    (l : List ℝ) (mp : MahKernelParams) (ep : SfrEffParams) (qp : QuenchParams)
    (i : ℕ) (hi : i < (predict_parts K t logmp l mp ep qp tmp (some c)).log_ssfr.length) :
    c ≤ (predict_parts K t logmp l mp ep qp tmp (some c)).log_ssfr.getD i 0 := by
  have hs : (predict_parts K t logmp l mp ep qp tmp (some c)).log_ssfr
      = (List.zipWith (fun a b => a - b)
          (individual_sfr_history K t logmp mp ep qp tmp).1
          (individual_sfr_history K t logmp mp ep qp tmp).2).map
          (fun v => if v < c then c else v) := by
    simp [predict_parts]
  rw [hs] at hi ⊢
  exact clip_floor_ge _ c i hi

/-- C7, witness at a concrete two-point grid, trivial kernels and floor
`0`. -/
theorem ssfr_clipped_at_floor_witness :
    0 < (predict_parts Ktriv [1, 2] 12 [] ⟨0, 0, 0, 0⟩ ⟨0, 0, 0, 0, 0, 0⟩ ⟨0, 0⟩ 14
        (some 0)).log_ssfr.length
      ∧ (0 : ℝ) ≤ (predict_parts Ktriv [1, 2] 12 [] ⟨0, 0, 0, 0⟩ ⟨0, 0, 0, 0, 0, 0⟩
        ⟨0, 0⟩ 14 (some 0)).log_ssfr.getD 0 0 := by
  have hlen : 0 < (predict_parts Ktriv [1, 2] 12 [] ⟨0, 0, 0, 0⟩ ⟨0, 0, 0, 0, 0, 0⟩
      ⟨0, 0⟩ 14 (some 0)).log_ssfr.length := by
    simp [predict_parts, individual_sfr_history, _individual_log_mstar_history_jax_kern,
      _individual_log_sfr_history_jax_kern, _calculate_cumulative_in_situ_mass, Ktriv,
      dt_array, dt_mid, cumsum]
  exact ⟨hlen, ssfr_clipped_at_floor Ktriv [1, 2] 12 14 0 [] ⟨0, 0, 0, 0⟩
    ⟨0, 0, 0, 0, 0, 0⟩ ⟨0, 0⟩ 0 hlen⟩

/-- C10 (confirmed): with `log_ssfr_clip = None` the clipping step is
skipped entirely and the returned log-sSFR is exactly the pointwise
difference of the pipeline's log-SFR and log-SM curves. -/
theorem ssfr_unclipped_is_sfr_minus_sm (K : Kernels) (t : List ℝ) (logmp tmp : ℝ)
    (l : List ℝ) (mp : MahKernelParams) (ep : SfrEffParams) (qp : QuenchParams) :
    (predict_parts K t logmp l mp ep qp tmp none).log_ssfr
      = List.zipWith (fun a b => a - b)
          (individual_sfr_history K t logmp mp ep qp tmp).1
          (individual_sfr_history K t logmp mp ep qp tmp).2 := by
  simp [predict_parts]

/-- C8 (confirmed): with a sequence timescale argument, the single-halo
orchestrator returns exactly the 3-tuple variant when the sequence is
empty, and exactly the 4-tuple variant otherwise, whose fourth element
holds one Fstar array per requested timescale in request order. -/
theorem return_arity_three_or_four (K : Kernels) (t : List ℝ) (logmp tmp : ℝ)
    (l : List ℝ) (mp : MahKernelParams) (ep : SfrEffParams) (qp : QuenchParams)
    (clip : Option ℝ) :
    (l = [] → predict_in_situ_history K t logmp (.seq l) mp ep qp tmp clip
        = .ok (.three (predict_parts K t logmp l mp ep qp tmp clip).log_mah
            (predict_parts K t logmp l mp ep qp tmp clip).log_sm
            (predict_parts K t logmp l mp ep qp tmp clip).log_ssfr))
      ∧ (l ≠ [] → predict_in_situ_history K t logmp (.seq l) mp ep qp tmp clip
        = .ok (.four (predict_parts K t logmp l mp ep qp tmp clip).log_mah
            (predict_parts K t logmp l mp ep qp tmp clip).log_sm
            (predict_parts K t logmp l mp ep qp tmp clip).log_ssfr
            (l.map (fun τ => _compute_fstar t
              (predict_parts K t logmp l mp ep qp tmp clip).log_sm τ)))) := by
  constructor
  · rintro rfl
    simp [predict_in_situ_history, normalize_fstar_timescales, predict_parts]
  · intro hl
    have hlen : 0 < l.length := List.length_pos.mpr hl
    simp [predict_in_situ_history, normalize_fstar_timescales, hlen, predict_parts]

/-- C8, witness: the empty sequence yields the 3-tuple and the
one-element sequence `[5]` yields the 4-tuple, at concrete inputs. -/
theorem return_arity_three_or_four_witness :
    predict_in_situ_history Ktriv [1, 2] 12 (.seq []) ⟨0, 0, 0, 0⟩ ⟨0, 0, 0, 0, 0, 0⟩
        ⟨0, 0⟩ 14 none
      = .ok (.three
          (predict_parts Ktriv [1, 2] 12 [] ⟨0, 0, 0, 0⟩ ⟨0, 0, 0, 0, 0, 0⟩ ⟨0, 0⟩ 14
            none).log_mah
          (predict_parts Ktriv [1, 2] 12 [] ⟨0, 0, 0, 0⟩ ⟨0, 0, 0, 0, 0, 0⟩ ⟨0, 0⟩ 14
            none).log_sm
          (predict_parts Ktriv [1, 2] 12 [] ⟨0, 0, 0, 0⟩ ⟨0, 0, 0, 0, 0, 0⟩ ⟨0, 0⟩ 14
            none).log_ssfr)
    ∧ predict_in_situ_history Ktriv [1, 2] 12 (.seq [5]) ⟨0, 0, 0, 0⟩ ⟨0, 0, 0, 0, 0, 0⟩
        ⟨0, 0⟩ 14 none
      = .ok (.four
          (predict_parts Ktriv [1, 2] 12 [5] ⟨0, 0, 0, 0⟩ ⟨0, 0, 0, 0, 0, 0⟩ ⟨0, 0⟩ 14
            none).log_mah
          (predict_parts Ktriv [1, 2] 12 [5] ⟨0, 0, 0, 0⟩ ⟨0, 0, 0, 0, 0, 0⟩ ⟨0, 0⟩ 14
            none).log_sm
          (predict_parts Ktriv [1, 2] 12 [5] ⟨0, 0, 0, 0⟩ ⟨0, 0, 0, 0, 0, 0⟩ ⟨0, 0⟩ 14
            none).log_ssfr
          ([5].map (fun τ => _compute_fstar [1, 2]
            (predict_parts Ktriv [1, 2] 12 [5] ⟨0, 0, 0, 0⟩ ⟨0, 0, 0, 0, 0, 0⟩ ⟨0, 0⟩ 14
              none).log_sm τ))) :=
  ⟨(return_arity_three_or_four Ktriv [1, 2] 12 14 [] ⟨0, 0, 0, 0⟩ ⟨0, 0, 0, 0, 0, 0⟩
      ⟨0, 0⟩ none).1 rfl,
   (return_arity_three_or_four Ktriv [1, 2] 12 14 [5] ⟨0, 0, 0, 0⟩ ⟨0, 0, 0, 0, 0, 0⟩
      ⟨0, 0⟩ none).2 (by simp)⟩

/-- C5 (confirmed): assuming the documented precondition of
`_compute_fstar` (a monotonic log-SM curve co-indexed with the grid),
every Fstar value lies in `[0, 1)`, and at any grid point whose window
`tau` covers the whole elapsed time `t - t_min` the value equals
`1 - SM(t_min)/SM(t)`. -/
theorem fstar_in_unit_interval_and_full_window (tarr lsm : List ℝ) (τ : ℝ)
    (hlen : lsm.length = tarr.length) (hmono : lsm.Sorted (· ≤ ·)) :
    (∀ x ∈ _compute_fstar tarr lsm τ, 0 ≤ x ∧ x < 1)
      ∧ ∀ i, i < tarr.length → tarr.getD i 0 - tarr.getD 0 0 ≤ τ →
        (_compute_fstar tarr lsm τ).getD i 0
          = 1 - (10 : ℝ) ^ (lsm.getD 0 0) / (10 : ℝ) ^ (lsm.getD i 0) := by
  constructor
  · intro x hx
    simp only [_compute_fstar, List.mem_map] at hx
    obtain ⟨p, hp, rfl⟩ := hx
    have hpos : (0 : ℝ) < (10 : ℝ) ^ p.2 / (10 : ℝ) ^ p.1 :=
      div_pos (Real.rpow_pos_of_pos (by norm_num) _) (Real.rpow_pos_of_pos (by norm_num) _)
    constructor
    · split
      · exact le_refl 0
      · exact le_of_not_lt (by assumption)
    · split
      · norm_num
      · linarith
  · intro i hi hτi
    rcases tarr with _ | ⟨t0, ts⟩
    · simp at hi
    rcases lsm with _ | ⟨y0, ys⟩
    · simp at hlen
    have hilen : i < (y0 :: ys).length := by
      rw [hlen]; exact hi
    have hτ2 : (t0 :: ts).getD i 0 - τ ≤ t0 := by
      simp only [List.getD_cons_zero] at hτi
      linarith
    unfold _compute_fstar
    rw [List.getD_eq_getElem _ _ (by
      simp only [List.length_map, List.length_zip, List.length_cons]
      simp only [List.length_cons] at hlen hi
      omega)]
    rw [List.getElem_map, List.getElem_zip, List.getElem_map, List.getElem_map]
    dsimp only [List.headD_cons]
    have hτ3 : (t0 :: ts)[i] - τ ≤ t0 := by
      rw [List.getD_eq_getElem _ _ hi] at hτ2
      exact hτ2
    have hclamp : (if (t0 :: ts)[i] - τ < t0 then t0 else (t0 :: ts)[i] - τ) = t0 := by
      split
      · rfl
      · exact le_antisymm hτ3 (not_lt.mp (by assumption))
    rw [hclamp]
    have hinterp : np_interp (Real.logb 10 t0) (List.map (Real.logb 10) (t0 :: ts))
        (y0 :: ys) = y0 := if_pos (le_refl _)
    rw [hinterp]
    have hy : y0 ≤ (y0 :: ys)[i] := by
      rcases Nat.eq_zero_or_pos i with rfl | hip
      · simp
      · have h5 := hmono.rel_get_of_lt (a := ⟨0, by simp⟩) (b := ⟨i, hilen⟩)
          (Fin.mk_lt_mk.mpr hip)
        simpa using h5
    have hle : (10 : ℝ) ^ y0 ≤ (10 : ℝ) ^ ((y0 :: ys)[i]) :=
      (Real.rpow_le_rpow_left_iff (by norm_num)).mpr hy
    have hq : (10 : ℝ) ^ y0 / (10 : ℝ) ^ ((y0 :: ys)[i]) ≤ 1 :=
      (div_le_one (Real.rpow_pos_of_pos (by norm_num) _)).mpr hle
    rw [if_neg (by linarith)]
    rw [List.getD_cons_zero, List.getD_eq_getElem _ _ hilen]

/-- C5, witness at the grid `[1, 2]`, log-SM `[0, 1]` and window `5`
(which covers the whole elapsed time at the second grid point). -/
theorem fstar_in_unit_interval_and_full_window_witness :
    (∀ x ∈ _compute_fstar [1, 2] [0, 1] 5, 0 ≤ x ∧ x < 1)
      ∧ (_compute_fstar [1, 2] [0, 1] 5).getD 1 0
        = 1 - (10 : ℝ) ^ (([0, 1] : List ℝ).getD 0 0)
            / (10 : ℝ) ^ (([0, 1] : List ℝ).getD 1 0) := by
  have h := fstar_in_unit_interval_and_full_window [1, 2] [0, 1] 5 rfl
    (by norm_num [List.sorted_cons])
  exact ⟨h.1, h.2 1 (by norm_num)
    (by norm_num [List.getD_cons_succ, List.getD_cons_zero])⟩

theorem pairwise_zip_of_pairwise_left {R : ℝ → ℝ → Prop} :
    ∀ (xp : List ℝ) (fp : List ℝ), xp.Pairwise R →
      (xp.zip fp).Pairwise (fun a b => R a.1 b.1)
  | [], _, _ => by simp
  | _ :: _, [], _ => by simp
  | x :: xs, y :: ys, hp => by
    rw [List.zip_cons_cons, List.pairwise_cons]
    refine ⟨?_, pairwise_zip_of_pairwise_left xs ys (List.pairwise_cons.mp hp).2⟩
    intro b hb
    have hb1 : b.1 ∈ xs := (List.mem_zip (by simpa using hb)).1
    exact (List.pairwise_cons.mp hp).1 b.1 hb1

theorem interp_pts_node :
    ∀ (l : List (ℝ × ℝ)) (p : ℝ × ℝ),
      (p :: l).Pairwise (fun a b => a.1 < b.1) →
      ∀ (i : ℕ) (hi : i < l.length),
        interp_pts (l.get ⟨i, hi⟩).1 (p :: l) = (l.get ⟨i, hi⟩).2
  | [], _, _, i, hi => absurd hi (by simp)
  | q :: t, p, hp, 0, hi => by
    have hpq : p.1 < q.1 := (List.pairwise_cons.mp hp).1 q (by simp)
    have hne : q.1 - p.1 ≠ 0 := sub_ne_zero.mpr hpq.ne'
    show (if q.1 ≤ q.1 then p.2 + (q.2 - p.2) * (q.1 - p.1) / (q.1 - p.1)
      else interp_pts q.1 (q :: t)) = q.2
    rw [if_pos (le_refl _), mul_div_cancel_right₀ _ hne]
    ring
  | q :: t, p, hp, j + 1, hi => by
    have hjt : j < t.length := by simpa using hi
    have hp2 : (q :: t).Pairwise (fun a b => a.1 < b.1) := (List.pairwise_cons.mp hp).2
    have hq : q.1 < (t.get ⟨j, hjt⟩).1 :=
      (List.pairwise_cons.mp hp2).1 (t.get ⟨j, hjt⟩) (t.get_mem j hjt)
    show (if (t.get ⟨j, hjt⟩).1 ≤ q.1 then p.2 + (q.2 - p.2) * _ / _
      else interp_pts (t.get ⟨j, hjt⟩).1 (q :: t)) = (t.get ⟨j, hjt⟩).2
    rw [if_neg (not_le.mpr hq)]
    exact interp_pts_node t q hp2 j hjt

theorem np_interp_at_node :
    ∀ (xp fp : List ℝ), xp.Pairwise (· < ·) → fp.length = xp.length →
      ∀ (i : ℕ), i < xp.length → np_interp (xp.getD i 0) xp fp = fp.getD i 0
  | [], _, _, _, i, hi => absurd hi (by simp)
  | x0 :: xs, [], _, hlen, _, _ => by simp at hlen
  | x0 :: xs, y0 :: ys, _, _, 0, _ => if_pos (le_refl _)
  | x0 :: xs, y0 :: ys, hs, hlen, j + 1, hi => by
    have hj : j < xs.length := by simpa using hi
    have hjy : j < ys.length := by
      simp only [List.length_cons] at hlen
      omega
    have hx0 : x0 < xs.getD j 0 := by
      rw [List.getD_eq_get _ _ hj]
      exact (List.pairwise_cons.mp hs).1 _ (xs.get_mem j hj)
    have hzlen : j < (xs.zip ys).length := by
      simp only [List.length_zip]
      omega
    have hpair : ((x0, y0) :: xs.zip ys).Pairwise (fun a b => a.1 < b.1) := by
      have := pairwise_zip_of_pairwise_left (x0 :: xs) (y0 :: ys) hs
      simpa [List.zip_cons_cons] using this
    have hnode := interp_pts_node (xs.zip ys) (x0, y0) hpair j hzlen
    rw [List.get_zip] at hnode
    show (if xs.getD j 0 ≤ x0 then y0
      else interp_pts (xs.getD j 0) ((x0, y0) :: xs.zip ys)) = ys.getD j 0
    rw [if_neg (not_le.mpr hx0)]
    rw [List.getD_eq_get _ _ hj, List.getD_eq_get _ _ hjy]
    simpa using hnode

/-- C9 (confirmed): the log-log linear resampling used by the
collection orchestrator is an identity on its own nodes: resampling any
curve defined on a strictly increasing positive grid back onto that
same grid reproduces the curve exactly. -/
theorem resample_identity_on_nodes (t c : List ℝ) (hs : t.Pairwise (· < ·))
    (hpos : ∀ x ∈ t, 0 < x) (hlen : c.length = t.length) :
    resample t t c = c := by
  have hmap : (t.map (Real.logb 10)).Pairwise (· < ·) := by
    rw [List.pairwise_map]
    exact hs.imp_of_mem fun ha hb hab =>
      Real.logb_lt_logb (by norm_num) (hpos _ ha) hab
  apply List.ext_getElem
  · simp [resample, hlen]
  · intro i h1 h2
    have hit : i < t.length := by simpa [resample] using h1
    have hnode := np_interp_at_node (t.map (Real.logb 10)) c hmap
      (by simpa using hlen) i (by simpa using hit)
    rw [List.getD_eq_getElem _ _ (by simpa using hit), List.getElem_map] at hnode
    rw [List.getD_eq_getElem _ _ h2] at hnode
    simp only [resample, List.getElem_map]
    exact hnode

/-- C9, witness at the concrete grid `[1, 2]` and curve `[3, 4]`. -/
theorem resample_identity_on_nodes_witness :
    resample [1, 2] [1, 2] [3, 4] = [3, 4] :=
  resample_identity_on_nodes [1, 2] [3, 4] (by norm_num [List.pairwise_cons])
    (by norm_num) rfl

/-- C3 (confirmed): for one halo, the collection orchestrator returns
exactly the single-halo pipeline result computed on the dense internal
grid `tt`, resampled onto the output array `ct` by log-log linear
interpolation — one single-row stacked array per curve, with the Fstar
arrays appended in request order. -/
theorem collection_singleton_matches_single (K : Kernels) (m s ct tt : List ℝ)
    (fs : FstarArg) (l : List ℝ) (clip : Option ℝ)
    (hfs : normalize_fstar_timescales fs = .ok l) :
    predict_in_situ_history_collection K [m] [s] ct tt fs clip
      = .ok ([[resample ct tt (predict_parts K tt (m.getD 1 0) l
              ⟨m.getD 2 0, m.getD 3 0, m.getD 4 0, m.getD 5 0⟩
              ⟨s.getD 0 0, s.getD 1 0, s.getD 2 0, s.getD 3 0, s.getD 4 0, s.getD 5 0⟩
              ⟨s.getD 6 0, s.getD 7 0⟩ (m.getD 0 0) clip).log_mah],
            [resample ct tt (predict_parts K tt (m.getD 1 0) l
              ⟨m.getD 2 0, m.getD 3 0, m.getD 4 0, m.getD 5 0⟩
              ⟨s.getD 0 0, s.getD 1 0, s.getD 2 0, s.getD 3 0, s.getD 4 0, s.getD 5 0⟩
              ⟨s.getD 6 0, s.getD 7 0⟩ (m.getD 0 0) clip).log_sm],
            [resample ct tt (predict_parts K tt (m.getD 1 0) l
              ⟨m.getD 2 0, m.getD 3 0, m.getD 4 0, m.getD 5 0⟩
              ⟨s.getD 0 0, s.getD 1 0, s.getD 2 0, s.getD 3 0, s.getD 4 0, s.getD 5 0⟩
              ⟨s.getD 6 0, s.getD 7 0⟩ (m.getD 0 0) clip).log_ssfr]]
          ++ (List.range l.length).map (fun it =>
              [resample ct tt ((predict_parts K tt (m.getD 1 0) l
                ⟨m.getD 2 0, m.getD 3 0, m.getD 4 0, m.getD 5 0⟩
                ⟨s.getD 0 0, s.getD 1 0, s.getD 2 0, s.getD 3 0, s.getD 4 0,
                  s.getD 5 0⟩
                ⟨s.getD 6 0, s.getD 7 0⟩ (m.getD 0 0) clip).fstar_collector.getD
                  it [])])) := by
  simp [predict_in_situ_history_collection, hfs]

/-- C3, witness: one concrete halo row, the trivial kernels, a
two-point dense grid, a one-point output grid and one Fstar
timescale. -/
theorem collection_singleton_matches_single_witness :
    predict_in_situ_history_collection Ktriv [[14, 12, 0, 0, 0, 0]]
        [[0, 0, 0, 0, 0, 0, 0, 0]] [1] [1, 2] (.seq [3]) none
      = .ok ([[resample [1] [1, 2] (predict_parts Ktriv [1, 2]
              (([14, 12, 0, 0, 0, 0] : List ℝ).getD 1 0) [3]
              ⟨([14, 12, 0, 0, 0, 0] : List ℝ).getD 2 0,
                ([14, 12, 0, 0, 0, 0] : List ℝ).getD 3 0,
                ([14, 12, 0, 0, 0, 0] : List ℝ).getD 4 0,
                ([14, 12, 0, 0, 0, 0] : List ℝ).getD 5 0⟩
              ⟨([0, 0, 0, 0, 0, 0, 0, 0] : List ℝ).getD 0 0,
                ([0, 0, 0, 0, 0, 0, 0, 0] : List ℝ).getD 1 0,
                ([0, 0, 0, 0, 0, 0, 0, 0] : List ℝ).getD 2 0,
                ([0, 0, 0, 0, 0, 0, 0, 0] : List ℝ).getD 3 0,
                ([0, 0, 0, 0, 0, 0, 0, 0] : List ℝ).getD 4 0,
                ([0, 0, 0, 0, 0, 0, 0, 0] : List ℝ).getD 5 0⟩
              ⟨([0, 0, 0, 0, 0, 0, 0, 0] : List ℝ).getD 6 0,
                ([0, 0, 0, 0, 0, 0, 0, 0] : List ℝ).getD 7 0⟩
              (([14, 12, 0, 0, 0, 0] : List ℝ).getD 0 0) none).log_mah],
            [resample [1] [1, 2] (predict_parts Ktriv [1, 2]
              (([14, 12, 0, 0, 0, 0] : List ℝ).getD 1 0) [3]
              ⟨([14, 12, 0, 0, 0, 0] : List ℝ).getD 2 0,
                ([14, 12, 0, 0, 0, 0] : List ℝ).getD 3 0,
                ([14, 12, 0, 0, 0, 0] : List ℝ).getD 4 0,
                ([14, 12, 0, 0, 0, 0] : List ℝ).getD 5 0⟩
              ⟨([0, 0, 0, 0, 0, 0, 0, 0] : List ℝ).getD 0 0,
                ([0, 0, 0, 0, 0, 0, 0, 0] : List ℝ).getD 1 0,
                ([0, 0, 0, 0, 0, 0, 0, 0] : List ℝ).getD 2 0,
                ([0, 0, 0, 0, 0, 0, 0, 0] : List ℝ).getD 3 0,
                ([0, 0, 0, 0, 0, 0, 0, 0] : List ℝ).getD 4 0,
                ([0, 0, 0, 0, 0, 0, 0, 0] : List ℝ).getD 5 0⟩
              ⟨([0, 0, 0, 0, 0, 0, 0, 0] : List ℝ).getD 6 0,
                ([0, 0, 0, 0, 0, 0, 0, 0] : List ℝ).getD 7 0⟩
              (([14, 12, 0, 0, 0, 0] : List ℝ).getD 0 0) none).log_sm],
            [resample [1] [1, 2] (predict_parts Ktriv [1, 2]
              (([14, 12, 0, 0, 0, 0] : List ℝ).getD 1 0) [3]
              ⟨([14, 12, 0, 0, 0, 0] : List ℝ).getD 2 0,
                ([14, 12, 0, 0, 0, 0] : List ℝ).getD 3 0,
                ([14, 12, 0, 0, 0, 0] : List ℝ).getD 4 0,
                ([14, 12, 0, 0, 0, 0] : List ℝ).getD 5 0⟩
              ⟨([0, 0, 0, 0, 0, 0, 0, 0] : List ℝ).getD 0 0,
                ([0, 0, 0, 0, 0, 0, 0, 0] : List ℝ).getD 1 0,
                ([0, 0, 0, 0, 0, 0, 0, 0] : List ℝ).getD 2 0,
                ([0, 0, 0, 0, 0, 0, 0, 0] : List ℝ).getD 3 0,
                ([0, 0, 0, 0, 0, 0, 0, 0] : List ℝ).getD 4 0,
                ([0, 0, 0, 0, 0, 0, 0, 0] : List ℝ).getD 5 0⟩
              ⟨([0, 0, 0, 0, 0, 0, 0, 0] : List ℝ).getD 6 0,
                ([0, 0, 0, 0, 0, 0, 0, 0] : List ℝ).getD 7 0⟩
              (([14, 12, 0, 0, 0, 0] : List ℝ).getD 0 0) none).log_ssfr]]
          ++ (List.range ([3] : List ℝ).length).map (fun it =>
              [resample [1] [1, 2] ((predict_parts Ktriv [1, 2]
                (([14, 12, 0, 0, 0, 0] : List ℝ).getD 1 0) [3]
                ⟨([14, 12, 0, 0, 0, 0] : List ℝ).getD 2 0,
                  ([14, 12, 0, 0, 0, 0] : List ℝ).getD 3 0,
                  ([14, 12, 0, 0, 0, 0] : List ℝ).getD 4 0,
                  ([14, 12, 0, 0, 0, 0] : List ℝ).getD 5 0⟩
                ⟨([0, 0, 0, 0, 0, 0, 0, 0] : List ℝ).getD 0 0,
                  ([0, 0, 0, 0, 0, 0, 0, 0] : List ℝ).getD 1 0,
                  ([0, 0, 0, 0, 0, 0, 0, 0] : List ℝ).getD 2 0,
                  ([0, 0, 0, 0, 0, 0, 0, 0] : List ℝ).getD 3 0,
                  ([0, 0, 0, 0, 0, 0, 0, 0] : List ℝ).getD 4 0,
                  ([0, 0, 0, 0, 0, 0, 0, 0] : List ℝ).getD 5 0⟩
                ⟨([0, 0, 0, 0, 0, 0, 0, 0] : List ℝ).getD 6 0,
                  ([0, 0, 0, 0, 0, 0, 0, 0] : List ℝ).getD 7 0⟩
                (([14, 12, 0, 0, 0, 0] : List ℝ).getD 0 0) none).fstar_collector.getD
                  it [])])) :=
  collection_singleton_matches_single Ktriv [14, 12, 0, 0, 0, 0]
    [0, 0, 0, 0, 0, 0, 0, 0] [1] [1, 2] (.seq [3]) [3] none rfl
